import Mathlib

/-!
Verification of `start_insights_services.py`.

File contents (env file, SearXNG settings, docker-compose manifest) are
modelled as `List Char`; the filesystem state the script touches is the
`World` structure below.  Python string operations (`str.replace`,
`in`, `split`, `strip`, `splitlines`) are embedded as executable
functions on `List Char`.
-/

set_option maxRecDepth 10000

namespace InsightsLM

/-- Python's `needle in hay` substring test (`x in s` is `True` for `x = ""`). -/
def containsSub (needle : List Char) : List Char → Bool
  | [] => needle.isEmpty
  | c :: rest => needle.isPrefixOf (c :: rest) || containsSub needle rest

/-- Python's `hay.replace(needle, repl)`: replace every (leftmost, non-overlapping)
occurrence of `needle` by `repl`, scanning left to right.  The script only calls
`str.replace` with non-empty patterns; for those this agrees with Python
(`rest.drop (p.length - 1)` is `s.drop p.length` when `p` is a non-empty
prefix of `s = c :: rest`). -/
def pyReplace (p r : List Char) : List Char → List Char
  | [] => []
  | c :: rest =>
    if p.isPrefixOf (c :: rest) then
      r ++ pyReplace p r (rest.drop (p.length - 1))
    else
      c :: pyReplace p r rest
termination_by s => s.length
decreasing_by
  · simp only [List.length_cons, List.length_drop]
    omega
  · simp only [List.length_cons]
    omega

/-! ### Python string helpers used by `prepare_env` -/

/-- ASCII whitespace stripped by Python's `str.strip()` (the env-file lines the
script reads are ASCII; Unicode whitespace is not modelled). -/
def isPyWs (c : Char) : Bool :=
  (c == ' ') || (c == '\t') || (c == '\n') || (c == '\r')
    || (c == Char.ofNat 11) || (c == Char.ofNat 12)

/-- `str.rstrip(chars)`: drop trailing characters satisfying `p`. -/
def rstripP (p : Char → Bool) (l : List Char) : List Char :=
  (l.reverse.dropWhile p).reverse

/-- `str.strip(chars)`: drop leading and trailing characters satisfying `p`. -/
def stripP (p : Char → Bool) (l : List Char) : List Char :=
  rstripP p (l.dropWhile p)

/-- `line.strip()`. -/
def stripWs (l : List Char) : List Char := stripP isPyWs l

/-- Split on newline characters, keeping a (possibly empty) final segment.
The script opens `.env` in text mode, so the content only contains `\n`. -/
def splitOnNl : List Char → List (List Char)
  | [] => [[]]
  | c :: rest =>
    if c = '\n' then [] :: splitOnNl rest
    else
      match splitOnNl rest with
      | [] => [[c]]
      | l :: ls => (c :: l) :: ls

/-- Python's `str.splitlines()` on `\n`-separated text: like splitting on `\n`
but without a trailing empty segment when the text ends in a newline. -/
def splitLines (s : List Char) : List (List Char) :=
  let parts := splitOnNl s
  if parts.getLast? = some [] then parts.dropLast else parts

/-- `line.strip().startswith('#')`. -/
def startsWithHash : List Char → Bool
  | '#' :: _ => true
  | _ => false

/-! ### The filesystem state touched by the script -/

/-- The files `start_insights_services.py` reads or writes.  `none` means the
file (or, for `secretsDir`, the directory) does not exist.  `secretsDir` is
the list of plain files in `.secrets` as (name, content) pairs; the script
only ever creates plain files there, so subdirectories are not modelled. -/
structure World where
  envFile : Option (List Char)
  secretsDir : Option (List (List Char × List Char))
  searxngBase : Option (List Char)
  searxngSettings : Option (List Char)
  composeFile : Option (List Char)
deriving DecidableEq, Repr

/-! ### `prepare_env` -/

/-- The marker substrings, line 53 of the script. -/
def secret_keys : List (List Char) :=
  ["KEY".toList, "PASSWORD".toList, "USERNAME".toList, "SALT".toList,
   "TOKEN".toList, "SECRET".toList, "AUTH".toList]

/-- `any(key in line for key in secret_keys)` — the check is against the whole
raw line, value part included. -/
def markersHit (line : List Char) : Bool :=
  secret_keys.any (fun m => containsSub m line)

/-- `line.split('=', 1)[0].lower()`: the part before the first `=`, lower-cased
(ASCII lowering; the `.env` keys are ASCII). -/
def keyName (line : List Char) : List Char :=
  (line.takeWhile (fun c => c != '=')).map Char.toLower

/-- `line.split('=', 1)[1].strip().strip('"').strip("'")`. -/
def valueOf (line : List Char) : List Char :=
  stripP (fun c => c == Char.ofNat 39)
    (stripP (fun c => c == '"')
      (stripWs ((line.dropWhile (fun c => c != '=')).drop 1)))

/-- Writing file `k` with content `v` into the secrets directory `d`
(overwrites an existing file of the same name). -/
def setFile (d : List (List Char × List Char)) (k v : List Char) :
    List (List Char × List Char) :=
  if d.any (fun e => e.1 = k) then
    d.map (fun e => if e.1 = k then (k, v) else e)
  else
    d ++ [(k, v)]

/-- The loop over the filtered lines in `prepare_env` (lines 55-65).
Returns the secrets-directory contents together with a success flag:
`false` models the uncaught `ValueError` raised when a marker-containing
line has no `=` (the two-element unpacking of a one-element split); files
written before that point are kept, as on the real filesystem. -/
def processLines :
    List (List Char) → List (List Char × List Char) →
      (List (List Char × List Char) × Bool)
  | [], acc => (acc, true)
  | l :: rest, acc =>
    if markersHit l then
      if l.contains '=' then
        processLines rest (setFile acc (keyName l) (valueOf l))
      else
        (acc, false)
    else
      processLines rest acc

/-- The non-blank, non-comment lines of the env file (line 52). -/
def pyFilterLines (content : List Char) : List (List Char) :=
  (splitLines content).filter
    (fun l => !(stripWs l).isEmpty && !startsWithHash (stripWs l))

/-- `prepare_env` (lines 33-67): ensure `.secrets` exists, delete its plain
files, then extract the sensitive entries of `.env` into it.  The returned
flag is `false` when an uncaught exception escapes (missing `.env`, or a
marker line without `=`); the `World` returned reflects all writes performed
before the exception — nothing is rolled back. -/
def prepare_env (w : World) : World × Bool :=
  let wc : World := { w with secretsDir := some [] }
  match w.envFile with
  | none => (wc, false)
  | some content =>
    let res := processLines (pyFilterLines content) []
    ({ wc with secretsDir := some res.1 }, res.2)

/-! ### `generate_searxng_secret_key` -/

/-- The placeholder token in `searxng/settings.yml`. -/
def ultrasecretkey : List Char := "ultrasecretkey".toList

/-- The alphabet of `secrets.token_hex`: lowercase hexadecimal digits. -/
def isHexLower (c : Char) : Bool :=
  c.isDigit || ('a' ≤ c && c ≤ 'f')

/-- `generate_searxng_secret_key` (lines 145-184), with the freshly generated
`secrets.token_hex(32)` passed in as `key`.  If the base template is absent
the function returns without touching anything; otherwise `settings.yml` is
created from the template when missing, and the placeholder, when present,
is replaced by `key` throughout. -/
def generate_searxng_secret_key (key : List Char) (w : World) : World :=
  match w.searxngBase with
  | none => w
  | some base =>
    let w1 : World :=
      match w.searxngSettings with
      | none => { w with searxngSettings := some base }
      | some _ => w
    match w1.searxngSettings with
    | none => w1
    | some content =>
      if containsSub ultrasecretkey content then
        { w1 with searxngSettings := some (pyReplace ultrasecretkey key content) }
      else
        w1

/-! ### `check_and_fix_docker_compose_for_searxng` -/

/-- The active security directive searched for in `docker-compose.yml`. -/
def capDropAll : List Char := "cap_drop: - ALL".toList

/-- The commented sentinel the directive is replaced by on first run. -/
def capDropSentinel : List Char :=
  "# cap_drop: - ALL  # Temporarily commented out for first run".toList

/-- The part of the sentinel after the embedded active directive
(`capDropSentinel = "# " ++ capDropAll ++ sentinelPost`). -/
def sentinelPost : List Char :=
  "  # Temporarily commented out for first run".toList

/-- `check_and_fix_docker_compose_for_searxng` (lines 188-223).  First-run
signal: `searxng/settings.yml` exists and still contains the placeholder. -/
def check_and_fix_docker_compose_for_searxng (w : World) : World :=
  match w.composeFile with
  | none => w
  | some content =>
    let placeholder_present : Bool :=
      match w.searxngSettings with
      | some s => containsSub ultrasecretkey s
      | none => false
    if placeholder_present && containsSub capDropAll content then
      { w with composeFile := some (pyReplace capDropAll capDropSentinel content) }
    else if !placeholder_present && containsSub capDropSentinel content then
      { w with composeFile := some (pyReplace capDropSentinel capDropAll content) }
    else
      w

/-! ### `docker_compose` and the orchestration commands -/

/-- The `--profile` part of the command: the code guards with
`if profile and profile != "None"` — the Python-`None` string, capital N. -/
def profileArgs : Option String → List String
  | none => []
  | some p => if p ≠ "" ∧ p ≠ "None" then ["--profile", p] else []

/-- The environment-overlay part of the command (`if environment:`). -/
def envArgs : Option String → List String
  | none => []
  | some e =>
    if e ≠ "" then ["-f", "local-ai-packaged/docker-compose.override." ++ e ++ ".yml"]
    else []

/-- The extra-overlay part of the command (lines 112-116): each file is
appended only when it exists on disk (`onDisk`); missing ones are skipped
with a warning. -/
def extraComposeArgs (onDisk : String → Bool) : List String → List String
  | [] => []
  | f :: rest =>
    (if onDisk f then ["-f", f] else []) ++ extraComposeArgs onDisk rest

/-- `docker_compose` (lines 94-118): construct the docker-compose command.
`onDisk` models `os.path.exists`. -/
def docker_compose (onDisk : String → Bool) (project profile environment : Option String)
    (compose_files : List String) (env_file : String) : List String :=
  ["docker", "compose"]
    ++ (match project with | some p => ["-p", p] | none => [])
    ++ ["--env-file", env_file]
    ++ profileArgs profile
    ++ ["-f", "docker-compose.yml", "-f", "docker-compose.override.yml"]
    ++ envArgs environment
    ++ extraComposeArgs onDisk compose_files

/-- `generate_yml` builds the same command plus `config` (lines 121-131). -/
def generate_yml_command (onDisk : String → Bool)
    (project profile environment : Option String) (compose_files : List String) :
    List String :=
  docker_compose onDisk project profile environment compose_files ".env" ++ ["config"]

/-- `stop_existing_containers` (lines 70-75): note the body calls
`docker_compose(profile=profile)` — the `project` parameter is ignored and
no `-p` flag is ever passed. -/
def stop_existing_containers (onDisk : String → Bool)
    (project profile : Option String) : List String :=
  docker_compose onDisk none profile none [] ".env" ++ ["down"]

/-- The parsed CLI arguments (lines 226-270). -/
structure Args where
  name : String
  profile : String
  environment : String
  compose_files : List String
  config : Bool
  update : Bool
deriving DecidableEq, Repr

/-- The `down` command issued by `main` (line 288): `main` calls
`stop_existing_containers(args.profile)`, binding the profile to the
*project* parameter positionally; the profile parameter stays `None`. -/
def main_stop_command (onDisk : String → Bool) (args : Args) : List String :=
  stop_existing_containers onDisk (some args.profile) none

/-- The filesystem effect of `main` (lines 273-304): with the config flag the
script only prints the merged manifest; otherwise it runs `prepare_env`,
`generate_searxng_secret_key`, `check_and_fix_docker_compose_for_searxng`
and then drives the (file-preserving) stop/pull/start subprocesses.  The
flag is `false` when `prepare_env` aborts with an uncaught exception, in
which case the later phases never run. -/
def main_world (key : List Char) (args : Args) (w : World) : World × Bool :=
  if args.config then (w, true)
  else
    let res := prepare_env w
    if res.2 then
      let w2 := generate_searxng_secret_key key res.1
      let w3 := check_and_fix_docker_compose_for_searxng w2
      (w3, true)
    else
      (res.1, false)

/-! ## General lemmas about the string helpers -/

theorem pyReplace_nil (p r : List Char) : pyReplace p r [] = [] := by
  simp [pyReplace]

theorem pyReplace_cons_neg {p r : List Char} {c : Char} {rest : List Char}
    (h : ¬ p <+: (c :: rest)) :
    pyReplace p r (c :: rest) = c :: pyReplace p r rest := by
  rw [pyReplace]
  have hb : p.isPrefixOf (c :: rest) = false := by
    rw [Bool.eq_false_iff]
    intro hcontra
    exact h ( List.isPrefixOf_iff_prefix.mp hcontra)
  rw [hb]
  simp

theorem pyReplace_append_pat {p r : List Char} (t : List Char) (hp : p ≠ []) :
    pyReplace p r (p ++ t) = r ++ pyReplace p r t := by
  cases p with
  | nil => exact absurd rfl hp
  | cons a p' =>
    show pyReplace (a :: p') r (a :: (p' ++ t)) = _
    rw [pyReplace]
    have hb : (a :: p').isPrefixOf (a :: (p' ++ t)) = true :=
      List.isPrefixOf_iff_prefix.mpr ⟨t, rfl⟩
    rw [hb]
    simp only [if_true, List.length_cons, Nat.add_sub_cancel]
    rw [List.drop_left]

theorem containsSub_cons (n : List Char) (c : Char) (t : List Char) :
    containsSub n (c :: t) = (n.isPrefixOf (c :: t) || containsSub n t) := rfl

theorem containsSub_self_append {q : List Char} (X : List Char) (hq : q ≠ []) :
    containsSub q (q ++ X) = true := by
  cases q with
  | nil => exact absurd rfl hq
  | cons a q' =>
    show containsSub (a :: q') (a :: (q' ++ X)) = true
    rw [containsSub_cons]
    have : (a :: q').isPrefixOf (a :: (q' ++ X)) = true :=
      List.isPrefixOf_iff_prefix.mpr ⟨X, rfl⟩
    rw [this]
    rfl

/-! ## The placeholder disappears after one replacement (machinery for C4) -/

theorem ultrasecretkey_ne_nil : ultrasecretkey ≠ [] := by decide

/-- Every nonempty proper suffix of the placeholder contains a character
that is not a lowercase hex digit. -/
theorem placeholder_proper_suffix_nonhex :
    ∀ q ∈ ultrasecretkey.tails, q ≠ [] → q.length < ultrasecretkey.length →
      ∃ c ∈ q, isHexLower c = false := by decide

/-- Prepending hex-only text cannot create a placeholder occurrence: the
placeholder starts with `u`, which is not a hex digit. -/
theorem containsSub_hexAppend (T : List Char) :
    ∀ X : List Char, (∀ c ∈ X, isHexLower c = true) →
      containsSub ultrasecretkey (X ++ T) = containsSub ultrasecretkey T := by
  intro X
  induction X with
  | nil => intro _; rfl
  | cons x xs ih =>
    intro hX
    have hx : isHexLower x = true := hX x (List.mem_cons_self x xs)
    have hxs : ∀ c ∈ xs, isHexLower c = true := fun c hc => hX c (List.mem_cons_of_mem _ hc)
    show containsSub ultrasecretkey (x :: (xs ++ T)) = _
    rw [containsSub_cons]
    have hnp : ultrasecretkey.isPrefixOf (x :: (xs ++ T)) = false := by
      rw [Bool.eq_false_iff]
      intro hp
      have hp' := List.isPrefixOf_iff_prefix.mp hp
      have hdec : ultrasecretkey = 'u' :: "ltrasecretkey".toList := by decide
      rw [hdec] at hp'
      obtain ⟨hc, -⟩ := List.cons_prefix_cons.mp hp'
      rw [← hc] at hx
      exact absurd hx (by decide)
    rw [hnp]
    rw [Bool.false_or]
    exact ih hxs

/-- If a nonempty proper suffix of the placeholder is a prefix of the
replacement output, it was already a prefix of the input: the 64 hex
characters of the fresh key cannot supply any such suffix. -/
theorem suffixReflectHex {R : List Char} (hR : ∀ c ∈ R, isHexLower c = true)
    (hRlen : R.length = 64) :
    ∀ (w q : List Char), q ≠ [] → q <:+ ultrasecretkey → q ≠ ultrasecretkey →
      q <+: pyReplace ultrasecretkey R w → q <+: w := by
  intro w
  induction w with
  | nil =>
    intro q h1 _ _ h4
    rw [pyReplace_nil] at h4
    obtain ⟨t, ht⟩ := h4
    exact absurd (List.append_eq_nil.mp ht).1 h1
  | cons e w' ih =>
    intro q h1 h2 h3 h4
    by_cases hA : ultrasecretkey <+: (e :: w')
    · obtain ⟨t, ht⟩ := hA
      rw [← ht, pyReplace_append_pat t ultrasecretkey_ne_nil] at h4
      have hql : q.length ≤ R.length := by
        have hle := h2.length_le
        have hul : ultrasecretkey.length = 14 := by decide
        omega
      have hqR : q <+: R := ( List.isPrefix_append_of_length hql).mp h4
      have hall : ∀ c ∈ q, isHexLower c = true := fun c hc => hR c (hqR.subset hc)
      have hlen : q.length < ultrasecretkey.length := by
        have hle := h2.length_le
        rcases Nat.lt_or_ge q.length ultrasecretkey.length with h | h
        · exact h
        · exact absurd (h2.eq_of_length (Nat.le_antisymm hle h)) h3
      obtain ⟨c, hc1, hc2⟩ :=
        placeholder_proper_suffix_nonhex q ((List.mem_tails q ultrasecretkey).mpr h2) h1 hlen
      rw [hall c hc1] at hc2
      exact absurd hc2 (by decide)
    · rw [pyReplace_cons_neg hA] at h4
      cases q with
      | nil => exact absurd rfl h1
      | cons qc q' =>
        obtain ⟨hqc, hq'⟩ := List.cons_prefix_cons.mp h4
        by_cases hq'e : q' = []
        · subst hq'e
          exact List.cons_prefix_cons.mpr ⟨hqc, ⟨w', rfl⟩⟩
        · have hq'suf : q' <:+ ultrasecretkey := (List.suffix_cons qc q').trans h2
          have hq'ne : q' ≠ ultrasecretkey := by
            intro heq
            have hle := h2.length_le
            rw [List.length_cons, heq] at hle
            omega
          exact List.cons_prefix_cons.mpr ⟨hqc, ih q' hq'e hq'suf hq'ne hq'⟩

/-- After one replacement by a 64-character lowercase-hex key, the
placeholder no longer occurs anywhere in the text. -/
theorem containsSub_pyReplace_key {R : List Char} (hR : ∀ c ∈ R, isHexLower c = true)
    (hRlen : R.length = 64) (w : List Char) :
    containsSub ultrasecretkey (pyReplace ultrasecretkey R w) = false := by
  have key : ∀ n (w : List Char), w.length ≤ n →
      containsSub ultrasecretkey (pyReplace ultrasecretkey R w) = false := by
    intro n
    induction n with
    | zero =>
      intro w hw
      have hwnil : w = [] := List.length_eq_zero.mp (Nat.le_zero.mp hw)
      subst hwnil
      rw [pyReplace_nil]
      decide
    | succ n ih =>
      intro w hw
      by_cases hA : ultrasecretkey <+: w
      · obtain ⟨t, ht⟩ := hA
        subst ht
        rw [pyReplace_append_pat t ultrasecretkey_ne_nil]
        rw [containsSub_hexAppend _ R hR]
        apply ih
        have h14 : ultrasecretkey.length = 14 := by decide
        rw [List.length_append, h14] at hw
        omega
      · cases w with
        | nil => rw [pyReplace_nil]; decide
        | cons c rest =>
          rw [pyReplace_cons_neg hA, containsSub_cons]
          have h2 : containsSub ultrasecretkey (pyReplace ultrasecretkey R rest) = false := by
            apply ih
            rw [List.length_cons] at hw
            omega
          rw [h2, Bool.or_false, Bool.eq_false_iff]
          intro hp
          have hp' := List.isPrefixOf_iff_prefix.mp hp
          have hdec : ultrasecretkey = 'u' :: "ltrasecretkey".toList := by decide
          rw [hdec] at hp'
          obtain ⟨hc, htail⟩ := List.cons_prefix_cons.mp hp'
          have htail' : "ltrasecretkey".toList <+: rest :=
            suffixReflectHex hR hRlen rest "ltrasecretkey".toList
              (by decide) (by decide) (by decide) htail
          exact hA (by rw [hdec]; exact List.cons_prefix_cons.mpr ⟨hc, htail'⟩)
  exact key w.length w le_rfl

/-! ## Comment / restore round-trip on the manifest (machinery for C5) -/

theorem capDropAll_ne_nil : capDropAll ≠ [] := by decide

theorem capDropSentinel_ne_nil : capDropSentinel ≠ [] := by decide

theorem sentinel_decomp :
    capDropSentinel = '#' :: ' ' :: (capDropAll ++ sentinelPost) := by decide

/-- No nonempty suffix of the active directive is a prefix of the sentinel
(the sentinel starts with `#`, which does not occur in the directive). -/
theorem capA_suffix_not_sentinel_pre :
    ∀ q ∈ capDropAll.tails, q ≠ [] → q.isPrefixOf capDropSentinel = false := by decide

/-- If a nonempty suffix of the active directive is a prefix of the
commented output, it was already a prefix of the input. -/
theorem suffixReflectCapA :
    ∀ (w q : List Char), q ≠ [] → q <:+ capDropAll →
      q <+: pyReplace capDropAll capDropSentinel w → q <+: w := by
  intro w
  induction w with
  | nil =>
    intro q h1 _ h4
    rw [pyReplace_nil] at h4
    obtain ⟨t, ht⟩ := h4
    exact absurd (List.append_eq_nil.mp ht).1 h1
  | cons e w' ih =>
    intro q h1 h2 h4
    by_cases hA : capDropAll <+: (e :: w')
    · obtain ⟨t, ht⟩ := hA
      rw [← ht, pyReplace_append_pat t capDropAll_ne_nil] at h4
      have hql : q.length ≤ capDropSentinel.length := by
        have hle := h2.length_le
        have h15 : capDropAll.length = 15 := by decide
        have h60 : capDropSentinel.length = 60 := by decide
        omega
      have hqS : q <+: capDropSentinel := ( List.isPrefix_append_of_length hql).mp h4
      have hfalse := capA_suffix_not_sentinel_pre q ((List.mem_tails q capDropAll).mpr h2) h1
      have htrue : q.isPrefixOf capDropSentinel = true :=
        List.isPrefixOf_iff_prefix.mpr hqS
      rw [htrue] at hfalse
      exact absurd hfalse (by decide)
    · rw [pyReplace_cons_neg hA] at h4
      cases q with
      | nil => exact absurd rfl h1
      | cons qc q' =>
        obtain ⟨hqc, hq'⟩ := List.cons_prefix_cons.mp h4
        by_cases hq'e : q' = []
        · subst hq'e
          exact List.cons_prefix_cons.mpr ⟨hqc, ⟨w', rfl⟩⟩
        · have hq'suf : q' <:+ capDropAll := (List.suffix_cons qc q').trans h2
          exact List.cons_prefix_cons.mpr ⟨hqc, ih q' hq'e hq'suf hq'⟩

/-- The commenting pass cannot leave the sentinel as a prefix of its output
unless the directive was a prefix of its input. -/
theorem noSentinelPrefix :
    ∀ x : List Char, ¬ capDropAll <+: x →
      ¬ capDropSentinel <+: pyReplace capDropAll capDropSentinel x := by
  intro x hA hS
  cases x with
  | nil =>
    rw [pyReplace_nil] at hS
    obtain ⟨t, ht⟩ := hS
    exact absurd (List.append_eq_nil.mp ht).1 capDropSentinel_ne_nil
  | cons c rest =>
    rw [pyReplace_cons_neg hA, sentinel_decomp] at hS
    obtain ⟨hc1, hS1⟩ := List.cons_prefix_cons.mp hS
    cases rest with
    | nil =>
      rw [pyReplace_nil] at hS1
      obtain ⟨t, ht⟩ := hS1
      exact List.noConfusion (List.append_eq_nil.mp ht).1
    | cons d rest' =>
      by_cases hA2 : capDropAll <+: (d :: rest')
      · obtain ⟨t, ht⟩ := hA2
        rw [← ht, pyReplace_append_pat t capDropAll_ne_nil] at hS1
        obtain ⟨habs, -⟩ := List.cons_prefix_cons.mp hS1
        exact absurd habs (by decide)
      · rw [pyReplace_cons_neg hA2] at hS1
        obtain ⟨hd, hS2⟩ := List.cons_prefix_cons.mp hS1
        have hApre : capDropAll <+: pyReplace capDropAll capDropSentinel rest' :=
          ( List.prefix_append capDropAll sentinelPost).trans hS2
        have hArest : capDropAll <+: rest' :=
          suffixReflectCapA rest' capDropAll capDropAll_ne_nil ( List.suffix_refl _) hApre
        obtain ⟨u, hu⟩ := hArest
        rw [← hu, pyReplace_append_pat u capDropAll_ne_nil] at hS2
        have hcapdec : capDropAll = 'c' :: "ap_drop: - ALL".toList := by decide
        rw [hcapdec, List.cons_append] at hS2
        obtain ⟨habs, -⟩ := List.cons_prefix_cons.mp hS2
        exact absurd habs (by decide)

/-- Commenting the directive out and then restoring it returns any manifest
text to its original form. -/
theorem pyReplace_cap_roundtrip (x : List Char) :
    pyReplace capDropSentinel capDropAll (pyReplace capDropAll capDropSentinel x) = x := by
  have key : ∀ n (x : List Char), x.length ≤ n →
      pyReplace capDropSentinel capDropAll (pyReplace capDropAll capDropSentinel x) = x := by
    intro n
    induction n with
    | zero =>
      intro x hx
      have hxnil : x = [] := List.length_eq_zero.mp (Nat.le_zero.mp hx)
      subst hxnil
      rw [pyReplace_nil, pyReplace_nil]
    | succ n ih =>
      intro x hx
      by_cases hA : capDropAll <+: x
      · obtain ⟨t, ht⟩ := hA
        subst ht
        rw [pyReplace_append_pat t capDropAll_ne_nil]
        rw [pyReplace_append_pat (pyReplace capDropAll capDropSentinel t)
          capDropSentinel_ne_nil]
        congr 1
        apply ih
        have h15 : capDropAll.length = 15 := by decide
        rw [List.length_append, h15] at hx
        omega
      · cases x with
        | nil => rw [pyReplace_nil, pyReplace_nil]
        | cons c rest =>
          rw [pyReplace_cons_neg hA]
          have hnS : ¬ capDropSentinel <+: (c :: pyReplace capDropAll capDropSentinel rest) := by
            have hres := noSentinelPrefix (c :: rest) hA
            rw [pyReplace_cons_neg hA] at hres
            exact hres
          rw [pyReplace_cons_neg hnS]
          congr 1
          apply ih
          rw [List.length_cons] at hx
          omega
  exact key x.length x le_rfl

/-- Commenting a manifest that contains the directive leaves the sentinel
present in the result. -/
theorem sentinel_in_replaced :
    ∀ x : List Char, containsSub capDropAll x = true →
      containsSub capDropSentinel (pyReplace capDropAll capDropSentinel x) = true := by
  intro x
  induction x with
  | nil => intro h; exact absurd h (by decide)
  | cons c rest ih =>
    intro h
    by_cases hA : capDropAll <+: (c :: rest)
    · obtain ⟨t, ht⟩ := hA
      rw [← ht, pyReplace_append_pat t capDropAll_ne_nil]
      exact containsSub_self_append _ capDropSentinel_ne_nil
    · rw [containsSub_cons] at h
      have hp : capDropAll.isPrefixOf (c :: rest) = false := by
        rw [Bool.eq_false_iff]
        intro hx
        exact hA ( List.isPrefixOf_iff_prefix.mp hx)
      rw [hp, Bool.false_or] at h
      rw [pyReplace_cons_neg hA, containsSub_cons, ih h, Bool.or_true]

/-! ## Which files the secret extractor creates (machinery for C1) -/

/-- A file name is present after `setFile` iff it is the written name or was
already present. -/
theorem setFile_mem (d : List (List Char × List Char)) (k v name : List Char) :
    (∃ u, (name, u) ∈ setFile d k v) ↔ (name = k ∨ ∃ u, (name, u) ∈ d) := by
  unfold setFile
  by_cases h : d.any (fun e => e.1 = k)
  · rw [if_pos h]
    constructor
    · rintro ⟨u, hu⟩
      obtain ⟨e, he, hfe⟩ := List.mem_map.mp hu
      by_cases hek : e.1 = k
      · rw [if_pos hek] at hfe
        left
        exact ((Prod.mk.injEq _ _ _ _).mp hfe).1.symm
      · rw [if_neg hek] at hfe
        right
        exact ⟨u, hfe ▸ he⟩
    · obtain ⟨e, he, hek⟩ := List.any_eq_true.mp h
      have hek' : e.1 = k := of_decide_eq_true hek
      rintro (rfl | ⟨u, hu⟩)
      · refine ⟨v, List.mem_map.mpr ⟨e, he, ?_⟩⟩
        rw [if_pos hek']
      · by_cases hnk : name = k
        · refine ⟨v, List.mem_map.mpr ⟨e, he, ?_⟩⟩
          rw [if_pos hek', hnk]
        · refine ⟨u, List.mem_map.mpr ⟨(name, u), hu, ?_⟩⟩
          rw [if_neg hnk]
  · rw [if_neg h]
    constructor
    · rintro ⟨u, hu⟩
      rcases List.mem_append.mp hu with h1 | h2
      · exact Or.inr ⟨u, h1⟩
      · left
        have := List.mem_singleton.mp h2
        exact ((Prod.mk.injEq _ _ _ _).mp this).1
    · rintro (rfl | ⟨u, hu⟩)
      · exact ⟨v, List.mem_append.mpr (Or.inr (List.mem_singleton.mpr rfl))⟩
      · exact ⟨u, List.mem_append.mpr (Or.inl hu)⟩

/-- Invariant of the extraction loop: it succeeds when every marker line has
an `=`, and the file names present afterwards are exactly the initial ones
plus the lower-cased keys of the marker-containing lines. -/
theorem processLines_spec :
    ∀ (lines : List (List Char)) (acc : List (List Char × List Char)),
      (∀ l ∈ lines, markersHit l = true → l.contains '=' = true) →
      (processLines lines acc).2 = true ∧
      ∀ name : List Char,
        (∃ v, (name, v) ∈ (processLines lines acc).1) ↔
          ((∃ v, (name, v) ∈ acc) ∨
            ∃ l ∈ lines, markersHit l = true ∧ name = keyName l) := by
  intro lines
  induction lines with
  | nil =>
    intro acc _
    refine ⟨rfl, ?_⟩
    intro name
    simp [processLines]
  | cons l rest ih =>
    intro acc hwf
    have hwfr : ∀ l' ∈ rest, markersHit l' = true → l'.contains '=' = true :=
      fun l' hl' => hwf l' (List.mem_cons_of_mem _ hl')
    by_cases hm : markersHit l = true
    · have he : l.contains '=' = true := hwf l (List.mem_cons_self _ _) hm
      have he' : '=' ∈ l := by simpa using he
      have hstep : processLines (l :: rest) acc
          = processLines rest (setFile acc (keyName l) (valueOf l)) := by
        simp [processLines, hm, he']
      obtain ⟨hflag, hmem⟩ := ih (setFile acc (keyName l) (valueOf l)) hwfr
      rw [hstep]
      refine ⟨hflag, ?_⟩
      intro name
      rw [hmem name, setFile_mem]
      simp only [List.mem_cons]
      constructor
      · rintro ((rfl | hacc) | ⟨l', hl', hhit, hkey⟩)
        · exact Or.inr ⟨l, Or.inl rfl, hm, rfl⟩
        · exact Or.inl hacc
        · exact Or.inr ⟨l', Or.inr hl', hhit, hkey⟩
      · rintro (hacc | ⟨l', (rfl | hl'), hhit, hkey⟩)
        · exact Or.inl (Or.inr hacc)
        · exact Or.inl (Or.inl hkey)
        · exact Or.inr ⟨l', hl', hhit, hkey⟩
    · have hm' : markersHit l = false := Bool.not_eq_true _ ▸ eq_false_of_ne_true hm
      have hstep : processLines (l :: rest) acc = processLines rest acc := by
        simp [processLines, hm']
      obtain ⟨hflag, hmem⟩ := ih acc hwfr
      rw [hstep]
      refine ⟨hflag, ?_⟩
      intro name
      rw [hmem name]
      simp only [List.mem_cons]
      constructor
      · rintro (hacc | ⟨l', hl', hhit, hkey⟩)
        · exact Or.inl hacc
        · exact Or.inr ⟨l', Or.inr hl', hhit, hkey⟩
      · rintro (hacc | ⟨l', (rfl | hl'), hhit, hkey⟩)
        · exact Or.inl hacc
        · rw [hm'] at hhit
          exact absurd hhit (by decide)
        · exact Or.inr ⟨l', hl', hhit, hkey⟩

/-! ## The extra-overlay arguments (machinery for C7) -/

/-- Filtering the extra files by existence does not change the arguments. -/
theorem extraComposeArgs_filter (onDisk : String → Bool) :
    ∀ files : List String,
      extraComposeArgs onDisk (files.filter (fun f => onDisk f))
        = extraComposeArgs onDisk files := by
  intro files
  induction files with
  | nil => rfl
  | cons f rest ih =>
    by_cases h : onDisk f
    · simp [extraComposeArgs, List.filter_cons, h, ih]
    · simp [extraComposeArgs, List.filter_cons, h, ih]

/-- The extra-overlay argument list is empty or starts with `-f`. -/
theorem extraComposeArgs_shape (onDisk : String → Bool) :
    ∀ files : List String, extraComposeArgs onDisk files = []
      ∨ ∃ t, extraComposeArgs onDisk files = "-f" :: t := by
  intro files
  induction files with
  | nil => exact Or.inl rfl
  | cons f rest ih =>
    by_cases h : onDisk f
    · exact Or.inr ⟨f :: extraComposeArgs onDisk rest, by simp [extraComposeArgs, h]⟩
    · simpa [extraComposeArgs, h] using ih

/-- If `-f path` occurs in the extra-overlay arguments then `path` exists. -/
theorem extraComposeArgs_pair_reflect (onDisk : String → Bool) (f : String) :
    ∀ files : List String,
      ["-f", f] <:+: extraComposeArgs onDisk files → onDisk f = true := by
  intro files
  induction files with
  | nil =>
    intro h
    obtain ⟨s, t, hst⟩ := h
    simp [extraComposeArgs] at hst
  | cons g rest ih =>
    intro h
    by_cases hg : onDisk g
    · have hx : extraComposeArgs onDisk (g :: rest)
          = "-f" :: g :: extraComposeArgs onDisk rest := by
        simp [extraComposeArgs, hg]
      rw [hx] at h
      rcases List.infix_cons_iff.mp h with h1 | h2
      · obtain ⟨-, h1'⟩ := List.cons_prefix_cons.mp h1
        obtain ⟨hf2, -⟩ := List.cons_prefix_cons.mp h1'
        rw [hf2]
        exact hg
      · rcases List.infix_cons_iff.mp h2 with h3 | h4
        · obtain ⟨hgf, h3'⟩ := List.cons_prefix_cons.mp h3
          rcases extraComposeArgs_shape onDisk rest with hnil | ⟨t, ht⟩
          · rw [hnil] at h3'
            obtain ⟨u, hu⟩ := h3'
            exact absurd hu (by simp)
          · rw [ht] at h3'
            obtain ⟨hf, -⟩ := List.cons_prefix_cons.mp h3'
            rw [hf, hgf]
            exact hg
        · exact ih h4
    · have hx : extraComposeArgs onDisk (g :: rest) = extraComposeArgs onDisk rest := by
        simp [extraComposeArgs, hg]
      rw [hx] at h
      exact ih h

/-- Every existing extra file contributes its `-f path` pair. -/
theorem extraComposeArgs_pair_mem (onDisk : String → Bool) (f : String) :
    ∀ files : List String, f ∈ files → onDisk f = true →
      ["-f", f] <:+: extraComposeArgs onDisk files := by
  intro files
  induction files with
  | nil => intro h; exact absurd h (List.not_mem_nil f)
  | cons g rest ih =>
    intro hmem hd
    rcases List.mem_cons.mp hmem with rfl | hmem'
    · refine ⟨[], extraComposeArgs onDisk rest, ?_⟩
      simp [extraComposeArgs, hd]
    · have hsub := ih hmem' hd
      obtain ⟨s, t, hst⟩ := hsub
      by_cases hg : onDisk g
      · refine ⟨"-f" :: g :: s, t, ?_⟩
        simp [extraComposeArgs, hg, ← hst]
      · refine ⟨s, t, ?_⟩
        simp [extraComposeArgs, hg, hst]

/-! ## The claims -/

/-- Claim C1, counterexample to the claim as stated: the line `HOST=abcTOKEN`
has key `HOST`, which contains none of the marker substrings, yet
`prepare_env` creates the secrets file `host` — the code checks the markers
against the whole raw line, value part included. -/
theorem prepare_env_value_marker_counterexample :
    secret_keys.all (fun m => !containsSub m "HOST".toList) = true
    ∧ (prepare_env ⟨some "HOST=abcTOKEN".toList, some [], none, none, none⟩).1.secretsDir
        = some [("host".toList, "abcTOKEN".toList)] := by
  exact ⟨by decide, by decide⟩

/-- Claim C1 (amended): on an environment file in which every
marker-containing filtered line has an `=`, `prepare_env` succeeds and
creates a secrets file exactly for those non-blank, non-comment lines whose
full raw text — key or value alike — contains one of the marker substrings
KEY, PASSWORD, USERNAME, SALT, TOKEN, SECRET, AUTH; a line containing no
marker anywhere produces no file.  Files are named by the lower-cased key. -/
theorem prepare_env_files_iff_line_marker
    (w : World) (content : List Char) (hw : w.envFile = some content)
    (hwf : ∀ l ∈ pyFilterLines content, markersHit l = true → l.contains '=' = true) :
    (prepare_env w).2 = true
    ∧ ∃ d, (prepare_env w).1.secretsDir = some d
        ∧ ∀ name : List Char, (∃ v, (name, v) ∈ d) ↔
            ∃ l ∈ pyFilterLines content, markersHit l = true ∧ name = keyName l := by
  obtain ⟨hflag, hmem⟩ := processLines_spec (pyFilterLines content) [] hwf
  have hpe : prepare_env w =
      ({ w with secretsDir := some (processLines (pyFilterLines content) []).1 },
        (processLines (pyFilterLines content) []).2) := by
    simp [prepare_env, hw]
  rw [hpe]
  refine ⟨hflag, (processLines (pyFilterLines content) []).1, rfl, ?_⟩
  intro name
  rw [hmem name]
  simp

/-- Claim C1 witness: a concrete env file with a marker only in a value
(`HOST=abcTOKEN`), a marker in a key (`A_KEY=q`), a marker-free line
(`FOO=bar`) and a comment. -/
theorem prepare_env_files_iff_line_marker_witness :
    (prepare_env ⟨some "# c\nHOST=abcTOKEN\nFOO=bar\nA_KEY=q".toList,
        none, none, none, none⟩).2 = true
    ∧ ∃ d, (prepare_env ⟨some "# c\nHOST=abcTOKEN\nFOO=bar\nA_KEY=q".toList,
          none, none, none, none⟩).1.secretsDir = some d
        ∧ ∀ name : List Char, (∃ v, (name, v) ∈ d) ↔
            ∃ l ∈ pyFilterLines "# c\nHOST=abcTOKEN\nFOO=bar\nA_KEY=q".toList,
              markersHit l = true ∧ name = keyName l :=
  prepare_env_files_iff_line_marker _ _ rfl (by decide)

/-- Claim C2 (code bug): the sentinel comparison on line 103 is against the
Python string `"None"`, not the CLI choice `none`, so profile `none` DOES
produce `--profile none` in the command; for `gpu-nvidia` the flag appears
as the claim says. -/
theorem docker_compose_profile_none_emits_flag :
    docker_compose (fun _ => false) none (some "none") none [] ".env"
        = ["docker", "compose", "--env-file", ".env", "--profile", "none",
           "-f", "docker-compose.yml", "-f", "docker-compose.override.yml"]
    ∧ docker_compose (fun _ => false) none (some "gpu-nvidia") none [] ".env"
        = ["docker", "compose", "--env-file", ".env", "--profile", "gpu-nvidia",
           "-f", "docker-compose.yml", "-f", "docker-compose.override.yml"] := by
  exact ⟨by decide, by decide⟩

/-- Claim C3 (code bug): `main` passes `args.profile` into the `project`
parameter of `stop_existing_containers`, whose body in turn never forwards a
project to `docker_compose`; the `down` command carries no `-p insights-lm`
(nor any `-p`) despite the function's own docstring. -/
theorem main_stop_command_lacks_project_flag (onDisk : String → Bool) (args : Args) :
    main_stop_command onDisk args
        = ["docker", "compose", "--env-file", ".env",
           "-f", "docker-compose.yml", "-f", "docker-compose.override.yml", "down"]
    ∧ "-p" ∉ main_stop_command onDisk args
    ∧ "insights-lm" ∉ main_stop_command onDisk args := by
  have h : main_stop_command onDisk args
      = ["docker", "compose", "--env-file", ".env",
         "-f", "docker-compose.yml", "-f", "docker-compose.override.yml", "down"] := rfl
  refine ⟨h, ?_, ?_⟩ <;> rw [h] <;> decide

/-- Claim C4: one bootstrapper run on a config that still contains the
placeholder replaces every occurrence of it with the single 64-character
lowercase-hex key; the placeholder is then absent, so a second run — with
any fresh key — leaves the file unchanged (twice equals once). -/
theorem generate_searxng_secret_key_idempotent
    (w : World) (base content key key2 : List Char)
    (hb : w.searxngBase = some base) (hs : w.searxngSettings = some content)
    (hc : containsSub ultrasecretkey content = true)
    (hk : ∀ c ∈ key, isHexLower c = true) (hklen : key.length = 64) :
    generate_searxng_secret_key key w
        = { w with searxngSettings := some (pyReplace ultrasecretkey key content) }
    ∧ containsSub ultrasecretkey (pyReplace ultrasecretkey key content) = false
    ∧ generate_searxng_secret_key key2 (generate_searxng_secret_key key w)
        = generate_searxng_secret_key key w := by
  have hnone := containsSub_pyReplace_key hk hklen content
  have h1 : generate_searxng_secret_key key w
      = { w with searxngSettings := some (pyReplace ultrasecretkey key content) } := by
    simp [generate_searxng_secret_key, hb, hs, hc]
  refine ⟨h1, hnone, ?_⟩
  rw [h1]
  simp [generate_searxng_secret_key, hb, hnone]

/-- Claim C4 witness: a concrete settings file and the keys `a…a`, `b…b`. -/
theorem generate_searxng_secret_key_idempotent_witness :
    generate_searxng_secret_key (List.replicate 64 'a')
        ⟨none, none, some "k: ultrasecretkey".toList, some "k: ultrasecretkey".toList, none⟩
      = { (⟨none, none, some "k: ultrasecretkey".toList,
            some "k: ultrasecretkey".toList, none⟩ : World) with
          searxngSettings :=
            some (pyReplace ultrasecretkey (List.replicate 64 'a')
              "k: ultrasecretkey".toList) }
    ∧ containsSub ultrasecretkey
        (pyReplace ultrasecretkey (List.replicate 64 'a') "k: ultrasecretkey".toList)
        = false
    ∧ generate_searxng_secret_key (List.replicate 64 'b')
        (generate_searxng_secret_key (List.replicate 64 'a')
          ⟨none, none, some "k: ultrasecretkey".toList, some "k: ultrasecretkey".toList, none⟩)
      = generate_searxng_secret_key (List.replicate 64 'a')
          ⟨none, none, some "k: ultrasecretkey".toList, some "k: ultrasecretkey".toList, none⟩ :=
  generate_searxng_secret_key_idempotent _ _ _ _ _ rfl rfl (by decide) (by decide) (by decide)

/-- Claim C5: with first-run signal true (settings still contain the
placeholder) and the active directive present, the patcher replaces the
directive by the commented sentinel; with the signal false and the sentinel
present it restores the directive; comment followed by restore returns the
manifest to its original text. -/
theorem check_and_fix_comment_restore_roundtrip
    (w w' : World) (s s' content : List Char)
    (h1s : w.searxngSettings = some s) (h1p : containsSub ultrasecretkey s = true)
    (h1c : w.composeFile = some content)
    (hA : containsSub capDropAll content = true)
    (h2s : w'.searxngSettings = some s') (h2p : containsSub ultrasecretkey s' = false)
    (h2c : w'.composeFile = some (pyReplace capDropAll capDropSentinel content)) :
    (check_and_fix_docker_compose_for_searxng w).composeFile
        = some (pyReplace capDropAll capDropSentinel content)
    ∧ (check_and_fix_docker_compose_for_searxng w').composeFile = some content := by
  constructor
  · simp [check_and_fix_docker_compose_for_searxng, h1c, h1s, h1p, hA]
  · have hsent := sentinel_in_replaced content hA
    simp [check_and_fix_docker_compose_for_searxng, h2c, h2s, h2p, hsent,
      pyReplace_cap_roundtrip]

/-- Claim C5 witness: a concrete manifest and settings pair, before and after
the bootstrapper has replaced the placeholder. -/
theorem check_and_fix_comment_restore_roundtrip_witness :
    (check_and_fix_docker_compose_for_searxng
        ⟨none, none, none, some "secret_key: ultrasecretkey".toList,
          some "x cap_drop: - ALL y".toList⟩).composeFile
      = some (pyReplace capDropAll capDropSentinel "x cap_drop: - ALL y".toList)
    ∧ (check_and_fix_docker_compose_for_searxng
        ⟨none, none, none, some "secret_key: abc123".toList,
          some (pyReplace capDropAll capDropSentinel "x cap_drop: - ALL y".toList)⟩).composeFile
      = some "x cap_drop: - ALL y".toList :=
  check_and_fix_comment_restore_roundtrip _ _ _ _ _ rfl (by decide) rfl (by decide)
    rfl (by decide) rfl

/-- Claim C6: with the config-only flag the run leaves every modelled file
untouched — the secret extractor, the bootstrapper, the first-run patcher
and the stop/pull/start phases never execute. -/
theorem main_config_only_no_side_effects (key : List Char) (args : Args) (w : World)
    (h : args.config = true) : main_world key args w = (w, true) := by
  simp [main_world, h]

/-- Claim C6 witness: a fully-populated world is returned unchanged. -/
theorem main_config_only_no_side_effects_witness :
    main_world [] ⟨"insights-lm", "cpu", "private", [], true, false⟩
        ⟨some [], some [(['a'], ['b'])], some ['c'], some ['d'], some ['e']⟩
      = (⟨some [], some [(['a'], ['b'])], some ['c'], some ['d'], some ['e']⟩, true) :=
  main_config_only_no_side_effects [] _ _ rfl

/-- Claim C7: the constructed command is unchanged if the extra overlay list
is filtered by existence (missing files are skipped, never an error), and
for each listed extra file the pair `-f path` appears among the extra
arguments iff the file exists on disk. -/
theorem docker_compose_extra_files_iff (onDisk : String → Bool)
    (project profile environment : Option String) (files : List String) (env_file : String) :
    docker_compose onDisk project profile environment files env_file
        = docker_compose onDisk project profile environment
            (files.filter (fun f => onDisk f)) env_file
    ∧ ∀ f ∈ files,
        (["-f", f] <:+: extraComposeArgs onDisk files ↔ onDisk f = true) := by
  constructor
  · unfold docker_compose
    rw [extraComposeArgs_filter]
  · intro f hf
    exact ⟨extraComposeArgs_pair_reflect onDisk f files,
      extraComposeArgs_pair_mem onDisk f files hf⟩

/-- Claim C7 witness: one existing and one missing extra file. -/
theorem docker_compose_extra_files_iff_witness :
    ["-f", "extra.yml"] <:+:
      extraComposeArgs (fun s => s == "extra.yml") ["extra.yml", "missing.yml"] :=
  ((docker_compose_extra_files_iff (fun s => s == "extra.yml") none none none
      ["extra.yml", "missing.yml"] ".env").2 "extra.yml" (by simp)).mpr (by decide)

/-- Claim C8: with `.env` missing, `prepare_env` has already cleared the
secrets directory (the clear precedes the open) when the uncaught exception
propagates; nothing is rolled back, and without the config flag the whole
run aborts in that state. -/
theorem prepare_env_missing_env_clears_and_fails (w : World) (h : w.envFile = none) :
    prepare_env w = ({ w with secretsDir := some [] }, false)
    ∧ ∀ (key : List Char) (args : Args), args.config = false →
        main_world key args w = ({ w with secretsDir := some [] }, false) := by
  have h1 : prepare_env w = ({ w with secretsDir := some [] }, false) := by
    simp [prepare_env, h]
  refine ⟨h1, ?_⟩
  intro key args hc
  simp [main_world, hc, h1]

/-- Claim C8 witness: a world with stale secrets files and no `.env`. -/
theorem prepare_env_missing_env_clears_and_fails_witness :
    prepare_env ⟨none, some [(['o'], ['v'])], none, none, some ['m']⟩
      = ({ (⟨none, some [(['o'], ['v'])], none, none, some ['m']⟩ : World) with
            secretsDir := some [] }, false)
    ∧ ∀ (key : List Char) (args : Args), args.config = false →
        main_world key args ⟨none, some [(['o'], ['v'])], none, none, some ['m']⟩
          = ({ (⟨none, some [(['o'], ['v'])], none, none, some ['m']⟩ : World) with
                secretsDir := some [] }, false) :=
  prepare_env_missing_env_clears_and_fails _ rfl

/-- Claim C9: a filtered line containing a marker but no `=` hits the
two-element unpacking of a one-element split — `prepare_env` aborts with the
uncaught `ValueError` (run fails, directory keeps only the files written so
far); a line with no marker and no `=` is silently skipped and processing
continues. -/
theorem processLines_no_eq_behavior
    (l : List Char) (rest : List (List Char)) (acc : List (List Char × List Char)) :
    (markersHit l = true → l.contains '=' = false →
        processLines (l :: rest) acc = (acc, false))
    ∧ (markersHit l = false → processLines (l :: rest) acc = processLines rest acc)
    ∧ ∀ (w : World) (content : List Char), w.envFile = some content →
        pyFilterLines content = l :: rest → markersHit l = true →
        l.contains '=' = false →
        prepare_env w = ({ w with secretsDir := some [] }, false) := by
  refine ⟨?_, ?_, ?_⟩
  · intro hm he
    have he' : '=' ∉ l := by simpa using he
    simp [processLines, hm, he']
  · intro hm
    simp [processLines, hm]
  · intro w content hw hfl hm he
    have he' : '=' ∉ l := by simpa using he
    have hp : processLines (pyFilterLines content) [] = ([], false) := by
      rw [hfl]
      simp [processLines, hm, he']
    simp [prepare_env, hw, hp]

/-- Claim C9 witness: the single line `A_KEY_NOEQ` (marker, no `=`) aborts
the run with the secrets directory cleared. -/
theorem processLines_no_eq_behavior_witness :
    prepare_env ⟨some "A_KEY_NOEQ".toList, some [(['z'], ['q'])], none, none, none⟩
      = (⟨some "A_KEY_NOEQ".toList, some [], none, none, none⟩, false) :=
  (processLines_no_eq_behavior "A_KEY_NOEQ".toList [] []).2.2
    ⟨some "A_KEY_NOEQ".toList, some [(['z'], ['q'])], none, none, none⟩
    "A_KEY_NOEQ".toList rfl (by decide) (by decide) (by decide)

/-- Claim C10: when the base template `searxng/settings-base.yml` is absent
the bootstrapper returns immediately; the runtime `settings.yml` is not
read or modified even when it exists and still contains the placeholder. -/
theorem generate_searxng_secret_key_missing_base_noop (key : List Char) (w : World)
    (h : w.searxngBase = none) : generate_searxng_secret_key key w = w := by
  simp [generate_searxng_secret_key, h]

/-- Claim C10 witness: settings still contain the placeholder, base missing
— nothing changes. -/
theorem generate_searxng_secret_key_missing_base_noop_witness :
    generate_searxng_secret_key "ff00".toList
        ⟨none, none, none, some "secret_key: ultrasecretkey".toList, none⟩
      = ⟨none, none, none, some "secret_key: ultrasecretkey".toList, none⟩ :=
  generate_searxng_secret_key_missing_base_noop _ _ rfl

end InsightsLM
